import Mathlib

/-!
Shallow embedding of the presence and message-mutation core of
`server.js` (a Socket.IO chat backend).

The mutable server state is made explicit:
* the MongoDB `Message` collection becomes a `List Message` (every stored
  document carries its store-assigned `_id` in the `id` field);
* the global `onlineUsers` object (`username -> socket.id`) becomes a
  function `String → Option String`;
* each socket handler becomes a pure function from the state and the event
  payload to the new state together with the list of emitted events.

Payloads are modelled at the string type the handlers use them at
(`typeof newText !== 'string'` is therefore always passed); the JS
truthiness guards `!messageId || !user` are kept as tests against the
empty string, which is the only falsy value of type string.  `lastSeen`
persistence, the `onlineUsers` snapshot broadcast and the WATCH_USER
alert are side channels none of the verified properties mention and are
elided.
-/

/-- One entry of a message's `reactions` array: `{ user, emoji }`. -/
structure Reaction where
  user : String
  emoji : String
deriving DecidableEq, Repr

/-- A stored `Message` document (schema of `server.js`), together with its
store-assigned `_id` (field `id`).  Dates are modelled as `Nat` instants. -/
structure Message where
  id : String
  sender : String
  receiver : String
  message : String
  timestamp : Nat
  read : Bool := false
  tag : Option String := none
  reactions : List Reaction := []
  edited : Bool := false
  editedAt : Option Nat := none
  deleted : Bool := false
  deletedBy : Option String := none
deriving DecidableEq, Repr

/-- The message store. MongoDB guarantees `_id` uniqueness; `save` writes the
document back under its `_id`. -/
abbrev Db := List Message

/-- The in-memory `onlineUsers` map, `username -> socket.id`. -/
abbrev OnlMap := String → Option String

/-- Events emitted by a handler: `io.to(room).emit(event)` or a directed
`io.to(socketId).emit(event)`. -/
inductive Emit where
  | toRoom (room : String) (event : String)
  | toSocket (socketId : String) (event : String)
deriving DecidableEq, Repr

/-- Model of Mongo ObjectId castability: a 24-character hex string.
(`Message.findById` throws a `CastError` on a string that cannot be cast;
the handlers catch it, so the claims only depend on malformed ids not
matching any stored document.) -/
def isValidObjectId (s : String) : Bool :=
  s.length = 24 && s.toList.all fun c =>
    c.isDigit || (('a' ≤ c) && (c ≤ 'f')) || (('A' ≤ c) && (c ≤ 'F'))

/-- `Message.findById(id)`: a malformed id raises (modelled as `.error`),
otherwise the first stored document with that `_id` is returned. -/
def findById (db : Db) (i : String) : Except Unit (Option Message) :=
  if isValidObjectId i then Except.ok (db.find? fun m => m.id == i)
  else Except.error ()

/-- `msg.save()`: write the (mutated) document back under its `_id`. -/
def updateById (db : Db) (i : String) (m : Message) : Db :=
  db.map fun x => if x.id = i then m else x

/-- The room-name scheme of the source: the template `${user1}_${user2}`
(used by `clearChat`'s emits and by the client-supplied rooms). -/
def convRoom (a b : String) : String := a ++ "_" ++ b

/-- The reaction mutation at the heart of the `addReaction` handler
(`findIndex` on `r.user === user`, then splice / in-place replace / push). -/
def applyReaction : List Reaction → String → String → List Reaction
  | [], user, emoji => [⟨user, emoji⟩]
  | r :: rs, user, emoji =>
    if r.user = user then
      if r.emoji = emoji then rs
      else ⟨user, emoji⟩ :: rs
    else
      r :: applyReaction rs user emoji

/-- The `addReaction` handler: look the message up, toggle/replace/append the
requester's reaction, save, and emit `messageUpdated` to the given room. -/
def addReaction (db : Db) (messageId user emoji room : String) : Db × List Emit :=
  match findById db messageId with
  | Except.error _ => (db, [])
  | Except.ok none => (db, [])
  | Except.ok (some msg) =>
      let msg' : Message := { msg with reactions := applyReaction msg.reactions user emoji }
      (updateById db messageId msg', [Emit.toRoom room "messageUpdated"])

/-- The filter of `markRead`'s `updateMany`:
`{ sender: user2, receiver: user1, read: false }`. -/
def matchesReadQuery (user1 user2 : String) (m : Message) : Bool :=
  m.sender == user2 && m.receiver == user1 && m.read == false

/-- The `markRead` handler: bulk-set `read` on the matching messages, then
send a directed `refresh` to `onlineUsers[user2]` when that entry is truthy. -/
def markRead (db : Db) (onl : OnlMap) (user1 user2 : String) : Db × List Emit :=
  ( db.map fun m => if matchesReadQuery user1 user2 m then { m with read := true } else m
  , match onl user2 with
    | some sid => if sid = "" then [] else [Emit.toSocket sid "refresh"]
    | none => [] )

/-- The `typing` handler: stateless; emits `typing` to the room
`${receiver}_${sender}` derived from the ordered payload pair. -/
def typing (sender receiver : String) : List Emit :=
  [Emit.toRoom (convRoom receiver sender) "typing"]

/-- The `clearChat` handler: bulk-delete both directions of the pair and emit
`cleared` to both orderings of the room name. -/
def clearChat (db : Db) (user1 user2 : String) : Db × List Emit :=
  ( db.filter fun m =>
      !((m.sender == user1 && m.receiver == user2) || (m.sender == user2 && m.receiver == user1))
  , [Emit.toRoom (convRoom user1 user2) "cleared", Emit.toRoom (convRoom user2 user1) "cleared"] )

/-- The `deleteMessage` handler: payload truthiness guard, lookup, sender-or-
receiver authorization, then the soft delete (fixed system notice) and save. -/
def deleteMessage (db : Db) (messageId user room : String) : Db × List Emit :=
  if messageId = "" ∨ user = "" then (db, [])
  else
    match findById db messageId with
    | Except.error _ => (db, [])
    | Except.ok none => (db, [])
    | Except.ok (some msg) =>
        if user ≠ msg.sender ∧ user ≠ msg.receiver then (db, [])
        else
          (updateById db messageId
            { msg with deleted := true, deletedBy := some user
                     , message := user ++ " deleted this message" }
          , [Emit.toRoom room "messageUpdated"])

/-- The `editMessage` handler: payload truthiness guard, lookup, sender-only
authorization, then body update, `edited := true`, `editedAt := now`, save. -/
def editMessage (db : Db) (messageId user newText room : String) (now : Nat) : Db × List Emit :=
  if messageId = "" ∨ user = "" then (db, [])
  else
    match findById db messageId with
    | Except.error _ => (db, [])
    | Except.ok none => (db, [])
    | Except.ok (some msg) =>
        if user = msg.sender then
          (updateById db messageId
            { msg with message := newText, edited := true, editedAt := some now }
          , [Emit.toRoom room "messageUpdated"])
        else (db, [])

/-- The presence transition of the `login` handler:
`onlineUsers[username] = socket.id` (unconditional overwrite). -/
def login (m : OnlMap) (username socketId : String) : OnlMap :=
  fun v => if v = username then some socketId else m v

/-- The presence transition of the `logout` handler:
`delete onlineUsers[username]`. -/
def logout (m : OnlMap) (username : String) : OnlMap :=
  fun v => if v = username then none else m v

/-- The presence transition of the `disconnect` handler: delete every
username currently mapped to the closing socket's id. -/
def disconnect (m : OnlMap) (socketId : String) : OnlMap :=
  fun v => if m v = some socketId then none else m v

/-- Derived presence predicate: an identity is online iff it has an entry in
`onlineUsers` (the map the snapshot broadcast and `markRead` consult). -/
def isOnline (m : OnlMap) (u : String) : Bool := (m u).isSome

/-- Whether a batch of emits reaches a connection that joined `room`
(`socket.join(room)` in the `joinRoom` handler; `io.to(room)` delivers to
exactly the sockets that joined `room`). -/
def deliversToRoom (emits : List Emit) (room : String) : Bool :=
  emits.any fun em =>
    match em with
    | Emit.toRoom r _ => r == room
    | _ => false

/-- `reactionsFrom rs u`: the entries of a reactions array belonging to
identity `u`. -/
def reactionsFrom (rs : List Reaction) (u : String) : List Reaction :=
  rs.filter fun r => r.user == u

/-! ### Lemmas about the reaction mutation -/

theorem reactionsFrom_cons_pos {r : Reaction} {u : String} (h : r.user = u) (rs : List Reaction) :
    reactionsFrom (r :: rs) u = r :: reactionsFrom rs u := by
  simp [reactionsFrom, List.filter_cons, h]

theorem reactionsFrom_cons_neg {r : Reaction} {u : String} (h : r.user ≠ u) (rs : List Reaction) :
    reactionsFrom (r :: rs) u = reactionsFrom rs u := by
  simp [reactionsFrom, List.filter_cons, h]

theorem reactionsFrom_append (xs ys : List Reaction) (u : String) :
    reactionsFrom (xs ++ ys) u = reactionsFrom xs u ++ reactionsFrom ys u := by
  simp [reactionsFrom, List.filter_append]

theorem reactionsFrom_eq_nil {rs : List Reaction} {u : String} (h : ∀ r ∈ rs, r.user ≠ u) :
    reactionsFrom rs u = [] := by
  induction rs with
  | nil => rfl
  | cons r rs ih =>
    rw [reactionsFrom_cons_neg (h r (List.mem_cons_self r rs))]
    exact ih fun x hx => h x (List.mem_cons_of_mem r hx)

theorem not_user_of_reactionsFrom_nil {rs : List Reaction} {u : String}
    (h : reactionsFrom rs u = []) : ∀ r ∈ rs, r.user ≠ u := by
  intro r hr hu
  have hmem : r ∈ reactionsFrom rs u := by
    simp [reactionsFrom, List.mem_filter, hr, hu]
  rw [h] at hmem
  cases hmem

theorem applyReaction_not_mem {rs : List Reaction} {u : String} (e : String)
    (h : ∀ r ∈ rs, r.user ≠ u) :
    applyReaction rs u e = rs ++ [⟨u, e⟩] := by
  induction rs with
  | nil => rfl
  | cons r rs ih =>
    have hr : r.user ≠ u := h r (List.mem_cons_self r rs)
    simp [applyReaction, hr, ih fun x hx => h x (List.mem_cons_of_mem r hx)]

theorem applyReaction_remove_head (rs : List Reaction) (u e : String) :
    applyReaction (⟨u, e⟩ :: rs) u e = rs := by
  simp [applyReaction]

theorem toggle_off_aux (rs : List Reaction) (u e : String)
    (hinv : (reactionsFrom rs u).length ≤ 1)
    (hdiff : ∀ r ∈ rs, r.user = u → r.emoji ≠ e) :
    reactionsFrom (applyReaction (applyReaction rs u e) u e) u = [] := by
  induction rs with
  | nil => simp [applyReaction, reactionsFrom]
  | cons r rs ih =>
    by_cases hr : r.user = u
    · have he : r.emoji ≠ e := hdiff r (List.mem_cons_self r rs) hr
      have h1 : applyReaction (r :: rs) u e = ⟨u, e⟩ :: rs := by
        simp [applyReaction, hr, he]
      rw [h1, applyReaction_remove_head]
      rw [reactionsFrom_cons_pos hr, List.length_cons] at hinv
      exact List.length_eq_zero.mp (by omega)
    · have h1 : applyReaction (r :: rs) u e = r :: applyReaction rs u e := by
        simp [applyReaction, hr]
      have h2 : applyReaction (r :: applyReaction rs u e) u e
          = r :: applyReaction (applyReaction rs u e) u e := by
        simp [applyReaction, hr]
      rw [h1, h2, reactionsFrom_cons_neg hr]
      rw [reactionsFrom_cons_neg hr] at hinv
      exact ih hinv fun x hx => hdiff x (List.mem_cons_of_mem r hx)

theorem toggle_back_aux (rs : List Reaction) (u e : String)
    (hinv : (reactionsFrom rs u).length ≤ 1)
    (hmem : (⟨u, e⟩ : Reaction) ∈ rs) :
    reactionsFrom (applyReaction (applyReaction rs u e) u e) u = [⟨u, e⟩] := by
  induction rs with
  | nil => cases hmem
  | cons r rs ih =>
    by_cases hr : r.user = u
    · rw [reactionsFrom_cons_pos hr, List.length_cons] at hinv
      have hnil : reactionsFrom rs u = [] := List.length_eq_zero.mp (by omega)
      have hnou : ∀ x ∈ rs, x.user ≠ u := not_user_of_reactionsFrom_nil hnil
      have hre : r = ⟨u, e⟩ := by
        cases List.mem_cons.mp hmem with
        | inl h => exact h.symm
        | inr h => exact absurd rfl (hnou _ h)
      subst hre
      rw [applyReaction_remove_head, applyReaction_not_mem e hnou,
        reactionsFrom_append, reactionsFrom_eq_nil hnou]
      simp [reactionsFrom]
    · have h1 : applyReaction (r :: rs) u e = r :: applyReaction rs u e := by
        simp [applyReaction, hr]
      have h2 : applyReaction (r :: applyReaction rs u e) u e
          = r :: applyReaction (applyReaction rs u e) u e := by
        simp [applyReaction, hr]
      have hmem' : (⟨u, e⟩ : Reaction) ∈ rs := by
        cases List.mem_cons.mp hmem with
        | inl h => exact absurd (congrArg Reaction.user h).symm hr
        | inr h => exact h
      rw [h1, h2, reactionsFrom_cons_neg hr]
      rw [reactionsFrom_cons_neg hr] at hinv
      exact ih hinv hmem'

theorem replace_aux (rs : List Reaction) (u e e' : String)
    (hinv : (reactionsFrom rs u).length ≤ 1)
    (hmem : (⟨u, e'⟩ : Reaction) ∈ rs) (hne : e' ≠ e) :
    reactionsFrom (applyReaction rs u e) u = [⟨u, e⟩] := by
  induction rs with
  | nil => cases hmem
  | cons r rs ih =>
    by_cases hr : r.user = u
    · rw [reactionsFrom_cons_pos hr, List.length_cons] at hinv
      have hnil : reactionsFrom rs u = [] := List.length_eq_zero.mp (by omega)
      have hnou : ∀ x ∈ rs, x.user ≠ u := not_user_of_reactionsFrom_nil hnil
      have hre : r = ⟨u, e'⟩ := by
        cases List.mem_cons.mp hmem with
        | inl h => exact h.symm
        | inr h => exact absurd rfl (hnou _ h)
      subst hre
      have hstep : applyReaction (⟨u, e'⟩ :: rs) u e = ⟨u, e⟩ :: rs := by
        simp [applyReaction, hne]
      rw [hstep, reactionsFrom_cons_pos rfl, hnil]
    · have h1 : applyReaction (r :: rs) u e = r :: applyReaction rs u e := by
        simp [applyReaction, hr]
      have hmem' : (⟨u, e'⟩ : Reaction) ∈ rs := by
        cases List.mem_cons.mp hmem with
        | inl h => exact absurd (congrArg Reaction.user h).symm hr
        | inr h => exact h
      rw [h1, reactionsFrom_cons_neg hr]
      rw [reactionsFrom_cons_neg hr] at hinv
      exact ih hinv hmem'

theorem mem_applyReaction {rs : List Reaction} {u e : String} {b : Reaction}
    (h : b ∈ applyReaction rs u e) : b ∈ rs ∨ b.user = u := by
  induction rs with
  | nil =>
    simp [applyReaction] at h
    exact Or.inr (by rw [h])
  | cons r rs ih =>
    by_cases hr : r.user = u
    · by_cases he : r.emoji = e
      · simp [applyReaction, hr, he] at h
        exact Or.inl (List.mem_cons_of_mem r h)
      · simp [applyReaction, hr, he] at h
        cases h with
        | inl h => exact Or.inr (by rw [h])
        | inr h => exact Or.inl (List.mem_cons_of_mem r h)
    · simp [applyReaction, hr] at h
      cases h with
      | inl h => exact Or.inl (by rw [h]; exact List.mem_cons_self r rs)
      | inr h =>
        cases ih h with
        | inl h2 => exact Or.inl (List.mem_cons_of_mem r h2)
        | inr h2 => exact Or.inr h2

/-! ### Claim theorems: reactions -/

/-- C4 (amended): under the reachable-state invariant that `u` has at most one
reaction on the message, reacting twice with the same emoji returns the
message to zero reactions from `u` whenever `u`'s prior reaction (if any) is
not already that emoji; when `u`'s prior reaction already is that emoji, the
first react removes it and the second re-appends it, ending with exactly the
one reaction `⟨u, e⟩`; and reacting with a different emoji replaces `u`'s
existing reaction rather than adding a second one. -/
theorem react_toggle_replace (rs : List Reaction) (u e : String)
    (hinv : (reactionsFrom rs u).length ≤ 1) :
    ((∀ r ∈ rs, r.user = u → r.emoji ≠ e) →
        reactionsFrom (applyReaction (applyReaction rs u e) u e) u = [])
  ∧ ((⟨u, e⟩ : Reaction) ∈ rs →
        reactionsFrom (applyReaction (applyReaction rs u e) u e) u = [⟨u, e⟩])
  ∧ (∀ e', (⟨u, e'⟩ : Reaction) ∈ rs → e' ≠ e →
        reactionsFrom (applyReaction rs u e) u = [⟨u, e⟩]) :=
  ⟨fun h => toggle_off_aux rs u e hinv h,
   fun h => toggle_back_aux rs u e hinv h,
   fun e' h hne => replace_aux rs u e e' hinv h hne⟩

/-- Witness for C4: on a message where `alice` has no prior reaction, two
`alice`/`+1` reacts end with zero reactions from `alice`. -/
theorem react_toggle_replace_witness :
    (reactionsFrom [⟨"bob", "+1"⟩] "alice").length ≤ 1
  ∧ reactionsFrom
      (applyReaction (applyReaction [⟨"bob", "+1"⟩] "alice" "+1") "alice" "+1") "alice" = [] :=
  ⟨by decide, (react_toggle_replace [⟨"bob", "+1"⟩] "alice" "+1" (by decide)).1 (by decide)⟩

/-- C4 counterexample: when `alice` already has the very emoji being sent,
reacting twice with it does NOT end at zero reactions from `alice` — the
first react removes the entry and the second re-appends it. -/
theorem react_double_same_emoji_cex :
    applyReaction (applyReaction [⟨"alice", "+1"⟩] "alice" "+1") "alice" "+1"
      = [⟨"alice", "+1"⟩]
  ∧ reactionsFrom
      (applyReaction (applyReaction [⟨"alice", "+1"⟩] "alice" "+1") "alice" "+1") "alice"
      ≠ [] := by
  decide

/-- C9: the `addReaction` mutation preserves the invariant that a message's
reactions array holds at most one entry per identity (entries have pairwise
distinct users): remove and in-place replace keep the users, and an append
happens only for an identity not yet present. -/
theorem reactions_unique_preserved (rs : List Reaction) (u e : String)
    (hinv : rs.Pairwise fun a b => a.user ≠ b.user) :
    (applyReaction rs u e).Pairwise fun a b => a.user ≠ b.user := by
  induction rs with
  | nil => simp [applyReaction]
  | cons r rs ih =>
    rw [List.pairwise_cons] at hinv
    obtain ⟨hall, hrs⟩ := hinv
    by_cases hr : r.user = u
    · by_cases he : r.emoji = e
      · simpa [applyReaction, hr, he] using hrs
      · have hstep : applyReaction (r :: rs) u e = ⟨u, e⟩ :: rs := by
          simp [applyReaction, hr, he]
        rw [hstep, List.pairwise_cons]
        refine ⟨fun b hb => ?_, hrs⟩
        have hb' := hall b hb
        rw [hr] at hb'
        exact hb'
    · have h1 : applyReaction (r :: rs) u e = r :: applyReaction rs u e := by
        simp [applyReaction, hr]
      rw [h1, List.pairwise_cons]
      refine ⟨fun b hb => ?_, ih hrs⟩
      cases mem_applyReaction hb with
      | inl h2 => exact hall b h2
      | inr h2 => rw [h2]; exact hr

/-- Witness for C9: a concrete reactions array with distinct users stays
distinct-per-user after a react. -/
theorem reactions_unique_preserved_witness :
    (applyReaction [⟨"bob", "+1"⟩] "alice" "-1").Pairwise fun a b => a.user ≠ b.user :=
  reactions_unique_preserved [⟨"bob", "+1"⟩] "alice" "-1" (by simp)

/-! ### Claim theorems: conversation rooms -/

/-- C1 (refuted on the source): the room naming actually used is the ordered
template `${a}_${b}`, which is not order-independent, and the `typing`
handler emits to the ordered room `${receiver}_${sender}` only — a connection
that joined the conversation's group via the other ordering of the pair
receives no `typing` event.  (`clearChat` compensates by emitting to both
orderings; `typing` does not.) -/
theorem typing_room_order_sensitive :
    convRoom "alice" "bob" ≠ convRoom "bob" "alice"
  ∧ deliversToRoom (typing "alice" "bob") (convRoom "alice" "bob") = false
  ∧ deliversToRoom (typing "alice" "bob") (convRoom "bob" "alice") = true := by
  decide

/-! ### Claim theorems: edit on deleted messages -/

/-- A concrete already-soft-deleted message. -/
def mDeleted : Message :=
  { id := "bbbbbbbbbbbbbbbbbbbbbbbb", sender := "alice", receiver := "bob"
  , message := "alice deleted this message", timestamp := 0
  , deleted := true, deletedBy := some "alice" }

/-- C7 (refuted on the source): the `editMessage` handler never consults the
`deleted` flag, so the sender's edit of an already-deleted message goes
through — the body is overwritten, `edited` becomes true and `editedAt` is
set — instead of being rejected. -/
theorem edit_deleted_not_rejected :
    mDeleted.deleted = true
  ∧ editMessage [mDeleted] "bbbbbbbbbbbbbbbbbbbbbbbb" "alice" "edited body" "room1" 7
      = ([{ mDeleted with message := "edited body", edited := true, editedAt := some 7 }]
        , [Emit.toRoom "room1" "messageUpdated"]) := by
  constructor
  · rfl
  · decide

/-! ### Claim theorems: edit / delete authorization -/

theorem isValid_of_findById_ok {db : Db} {i : String} {o : Option Message}
    (h : findById db i = Except.ok o) : isValidObjectId i = true := by
  by_cases hv : isValidObjectId i
  · exact hv
  · simp [findById, hv] at h

theorem valid_ne_empty {i : String} (h : isValidObjectId i = true) : i ≠ "" := by
  intro he
  subst he
  exact absurd h (by decide)

/-- C2 (amended): for a stored message, the edit goes through — body set to
the new text, `edited := true`, `editedAt` stamped — exactly when the
requesting identity is non-empty and equals the message's sender (the
handler's payload-truthiness guard drops an empty requester before the
authorization check); any other requester leaves the store byte-for-byte
unchanged and nothing is emitted. -/
theorem editMessage_auth (db : Db) (i u t room : String) (now : Nat) (m : Message)
    (hfind : findById db i = Except.ok (some m)) :
    (u ≠ "" ∧ u = m.sender →
      editMessage db i u t room now =
        (updateById db i { m with message := t, edited := true, editedAt := some now }
        , [Emit.toRoom room "messageUpdated"]))
  ∧ (u = "" ∨ u ≠ m.sender → editMessage db i u t room now = (db, [])) := by
  have hi : i ≠ "" := valid_ne_empty (isValid_of_findById_ok hfind)
  constructor
  · rintro ⟨hu, hs⟩
    subst hs
    simp [editMessage, hi, hu, hfind]
  · intro h
    by_cases hu : u = ""
    · simp [editMessage, hu]
    · have hs : u ≠ m.sender := by
        cases h with
        | inl h' => exact absurd h' hu
        | inr h' => exact h'
      simp [editMessage, hi, hu, hfind, hs]

/-- A stored message whose `sender` is the empty string (creatable through
`sendMessage`, whose payload is not validated). -/
def mEmptySender : Message :=
  { id := "cccccccccccccccccccccccc", sender := "", receiver := "bob"
  , message := "hi", timestamp := 0 }

/-- C2 counterexample: the requester `""` *is* the message's sender, yet the
edit is dropped by the `!user` truthiness guard — the message keeps its body
and `edited = false`, refuting the claimed "if and only if" over every
message/request pair. -/
theorem editMessage_empty_requester_cex :
    mEmptySender.sender = ""
  ∧ editMessage [mEmptySender] "cccccccccccccccccccccccc" "" "new body" "r" 3
      = ([mEmptySender], [])
  ∧ mEmptySender.edited = false := by
  decide

/-- A stored message used to exercise `editMessage_auth`. -/
def mEdit : Message :=
  { id := "dddddddddddddddddddddddd", sender := "alice", receiver := "bob"
  , message := "hi", timestamp := 0 }

/-- Witness for C2: a third identity's edit attempt leaves the store
unchanged and emits nothing. -/
theorem editMessage_auth_witness :
    (("carol" : String) = "" ∨ "carol" ≠ mEdit.sender)
  ∧ editMessage [mEdit] "dddddddddddddddddddddddd" "carol" "x" "r" 1 = ([mEdit], []) :=
  ⟨Or.inr (by decide),
   (editMessage_auth [mEdit] "dddddddddddddddddddddddd" "carol" "x" "r" 1 mEdit rfl).2
     (Or.inr (by decide))⟩

/-- C3 (amended): for a stored message, the soft delete goes through —
`deleted := true`, `deletedBy` set, body replaced by the fixed notice
`"<user> deleted this message"` — exactly when the requesting identity is
non-empty and equals the message's sender or receiver (the handler's
payload-truthiness guard drops an empty requester first); any other
requester leaves the record entirely unchanged. -/
theorem deleteMessage_auth (db : Db) (i u room : String) (m : Message)
    (hfind : findById db i = Except.ok (some m)) :
    (u ≠ "" ∧ (u = m.sender ∨ u = m.receiver) →
      deleteMessage db i u room =
        (updateById db i
          { m with deleted := true, deletedBy := some u
                 , message := u ++ " deleted this message" }
        , [Emit.toRoom room "messageUpdated"]))
  ∧ (u = "" ∨ (u ≠ m.sender ∧ u ≠ m.receiver) → deleteMessage db i u room = (db, [])) := by
  have hi : i ≠ "" := valid_ne_empty (isValid_of_findById_ok hfind)
  constructor
  · rintro ⟨hu, hsr⟩
    have hcond : ¬(u ≠ m.sender ∧ u ≠ m.receiver) := by
      cases hsr with
      | inl h' => exact fun hc => hc.1 h'
      | inr h' => exact fun hc => hc.2 h'
    simp [deleteMessage, hi, hu, hfind, hcond]
  · intro h
    by_cases hu : u = ""
    · simp [deleteMessage, hu]
    · have hsr : u ≠ m.sender ∧ u ≠ m.receiver := by
        cases h with
        | inl h' => exact absurd h' hu
        | inr h' => exact h'
      simp [deleteMessage, hi, hu, hfind, hsr]

/-- A second stored message with an empty `sender`. -/
def mEmptySender2 : Message :=
  { id := "eeeeeeeeeeeeeeeeeeeeeeee", sender := "", receiver := "bob"
  , message := "hi", timestamp := 0 }

/-- C3 counterexample: the requester `""` equals the message's sender, yet
the delete is dropped by the `!user` truthiness guard — the record stays
entirely unchanged, refuting the claim over every message/request pair. -/
theorem deleteMessage_empty_requester_cex :
    mEmptySender2.sender = ""
  ∧ deleteMessage [mEmptySender2] "eeeeeeeeeeeeeeeeeeeeeeee" "" "r" = ([mEmptySender2], [])
  ∧ mEmptySender2.deleted = false := by
  decide

/-- A stored message used to exercise `deleteMessage_auth`. -/
def mDel : Message :=
  { id := "ffffffffffffffffffffffff", sender := "alice", receiver := "bob"
  , message := "hi", timestamp := 0 }

/-- Witness for C3: the receiver's delete succeeds and replaces the body
with the fixed system notice. -/
theorem deleteMessage_auth_witness :
    (("bob" : String) ≠ "" ∧ ("bob" = mDel.sender ∨ "bob" = mDel.receiver))
  ∧ deleteMessage [mDel] "ffffffffffffffffffffffff" "bob" "r"
      = (updateById [mDel] "ffffffffffffffffffffffff"
          { mDel with deleted := true, deletedBy := some "bob"
                    , message := "bob" ++ " deleted this message" }
        , [Emit.toRoom "r" "messageUpdated"]) :=
  ⟨⟨by decide, Or.inr rfl⟩,
   (deleteMessage_auth [mDel] "ffffffffffffffffffffffff" "bob" "r" mDel rfl).1
     ⟨by decide, Or.inr rfl⟩⟩

/-! ### Claim theorems: markRead and presence -/

theorem matchesReadQuery_iff (a b : String) (m : Message) :
    matchesReadQuery a b m = true ↔ (m.sender = b ∧ m.receiver = a ∧ m.read = false) := by
  simp [matchesReadQuery, and_assoc]

/-- C5: `markRead(a, b)` flips `read` to true on exactly the stored messages
with `sender = b`, `receiver = a`, `read = false` — every other message, and
every other field of a flipped message, is unchanged and the store keeps its
length — and it sends exactly one directed `refresh` to `b`'s socket when
`b` is online (with the nonempty socket id the transport assigns), none when
`b` is offline. -/
theorem markRead_spec (db : Db) (onl : OnlMap) (a b : String) :
    ((markRead db onl a b).1.length = db.length)
  ∧ (∀ (i : Nat) (m m' : Message), db[i]? = some m → (markRead db onl a b).1[i]? = some m' →
       ((m.sender = b ∧ m.receiver = a ∧ m.read = false) → m' = { m with read := true })
     ∧ (¬(m.sender = b ∧ m.receiver = a ∧ m.read = false) → m' = m))
  ∧ (∀ sid, onl b = some sid → sid ≠ "" →
       (markRead db onl a b).2 = [Emit.toSocket sid "refresh"])
  ∧ (onl b = none → (markRead db onl a b).2 = []) := by
  refine ⟨by simp [markRead], ?_, ?_, ?_⟩
  · intro i m m' hm hm'
    have hmap : (markRead db onl a b).1[i]?
        = some (if matchesReadQuery a b m then { m with read := true } else m) := by
      simp [markRead, List.getElem?_map, hm]
    rw [hm'] at hmap
    have heq : m' = if matchesReadQuery a b m then { m with read := true } else m :=
      Option.some.inj hmap
    constructor
    · intro hq
      rw [heq]
      exact if_pos ((matchesReadQuery_iff a b m).mpr hq)
    · intro hq
      rw [heq]
      exact if_neg fun hc => hq ((matchesReadQuery_iff a b m).mp hc)
  · intro sid hsid hne
    simp [markRead, hsid, hne]
  · intro hnone
    simp [markRead, hnone]

/-- A presence map with only `alice` online. -/
def onlW : OnlMap := fun v => if v = "alice" then some "sock1" else none

/-- An unread stored message from `alice` to `bob`. -/
def mW5 : Message :=
  { id := "aaaaaaaaaaaaaaaaaaaaaaaa", sender := "alice", receiver := "bob"
  , message := "hi", timestamp := 0 }

/-- Witness for C5: `bob` marks his conversation with `alice` read — the one
unread message flips to `read = true` and the online `alice` gets exactly one
directed `refresh`. -/
theorem markRead_spec_witness :
    (markRead [mW5] onlW "bob" "alice").1[0]? = some { mW5 with read := true }
  ∧ ({ mW5 with read := true } : Message) = { mW5 with read := true }
  ∧ (markRead [mW5] onlW "bob" "alice").2 = [Emit.toSocket "sock1" "refresh"] :=
  ⟨by decide,
   ((markRead_spec [mW5] onlW "bob" "alice").2.1 0 mW5 { mW5 with read := true }
      rfl (by decide)).1 ⟨rfl, rfl, rfl⟩,
   (markRead_spec [mW5] onlW "bob" "alice").2.2.1 "sock1" (by decide) (by decide)⟩

/-- C10: the directed `refresh` of `markRead` is emitted unconditionally on
the message store — for every store, including one where no message matches
the `sender = b`, `receiver = a`, `read = false` filter, exactly one
`refresh` goes to `b`'s socket whenever `b` is online. -/
theorem markRead_refresh_unconditional (db : Db) (onl : OnlMap) (a b sid : String)
    (hon : onl b = some sid) (hne : sid ≠ "") :
    (markRead db onl a b).2 = [Emit.toSocket sid "refresh"] := by
  simp [markRead, hon, hne]

/-- A presence map with only `dave` online. -/
def onl10 : OnlMap := fun v => if v = "dave" then some "sock9" else none

/-- Witness for C10: on an empty store (zero messages match), the online
`dave` still receives exactly one `refresh`. -/
theorem markRead_refresh_unconditional_witness :
    onl10 "dave" = some "sock9"
  ∧ (markRead [] onl10 "carol" "dave").2 = [Emit.toSocket "sock9" "refresh"] :=
  ⟨by decide,
   markRead_refresh_unconditional [] onl10 "carol" "dave" "sock9" (by decide) (by decide)⟩

/-- C6: an identity is online immediately after its `login` association;
offline immediately after an explicit `logout`; and offline immediately
after the disconnect of the socket it is associated with (the `onlineUsers`
map holds at most one connection per identity, so that socket is all of
them). -/
theorem online_lifecycle :
    (∀ (m : OnlMap) (u sid : String), isOnline (login m u sid) u = true)
  ∧ (∀ (m : OnlMap) (u : String), isOnline (logout m u) u = false)
  ∧ (∀ (m : OnlMap) (sid u : String), m u = some sid →
       isOnline (disconnect m sid) u = false) := by
  refine ⟨?_, ?_, ?_⟩
  · intro m u sid
    simp [isOnline, login]
  · intro m u
    simp [isOnline, logout]
  · intro m sid u h
    simp [isOnline, disconnect, h]

/-- A presence map with only `alice` online, on socket `sock1`. -/
def onl6 : OnlMap := fun v => if v = "alice" then some "sock1" else none

/-- Witness for C6: concrete login / logout / disconnect transitions. -/
theorem online_lifecycle_witness :
    isOnline (login (fun _ => none) "alice" "sock1") "alice" = true
  ∧ isOnline (logout onl6 "alice") "alice" = false
  ∧ (onl6 "alice" = some "sock1" ∧ isOnline (disconnect onl6 "sock1") "alice" = false) :=
  ⟨online_lifecycle.1 (fun _ => none) "alice" "sock1",
   online_lifecycle.2.1 onl6 "alice",
   by decide,
   online_lifecycle.2.2 onl6 "sock1" "alice" (by decide)⟩

/-! ### Claim theorems: malformed or unknown message ids -/

theorem findById_not_found {db : Db} {i : String}
    (h : isValidObjectId i = false ∨ (db.find? fun m => m.id == i) = none) :
    findById db i = Except.error () ∨ findById db i = Except.ok none := by
  cases h with
  | inl hv => exact Or.inl (by simp [findById, hv])
  | inr hn =>
    by_cases hv : isValidObjectId i
    · exact Or.inr (by simp [findById, hv, hn])
    · exact Or.inl (by simp [findById, hv])

/-- C8: a react, edit or delete request whose `messageId` is malformed (the
store lookup raises and the handler's catch swallows it) or matches no
stored document is a total no-op: the store is unchanged and nothing is
emitted, so the connection's later events run against the same state. -/
theorem invalid_or_missing_id_noop (db : Db) (i u e t room : String) (now : Nat)
    (h : isValidObjectId i = false ∨ (db.find? fun m => m.id == i) = none) :
    addReaction db i u e room = (db, [])
  ∧ editMessage db i u t room now = (db, [])
  ∧ deleteMessage db i u room = (db, []) := by
  have hf := findById_not_found h
  refine ⟨?_, ?_, ?_⟩
  · cases hf with
    | inl h2 => simp [addReaction, h2]
    | inr h2 => simp [addReaction, h2]
  · by_cases hg : i = "" ∨ u = ""
    · simp [editMessage, hg]
    · cases hf with
      | inl h2 => simp [editMessage, hg, h2]
      | inr h2 => simp [editMessage, hg, h2]
  · by_cases hg : i = "" ∨ u = ""
    · simp [deleteMessage, hg]
    · cases hf with
      | inl h2 => simp [deleteMessage, hg, h2]
      | inr h2 => simp [deleteMessage, hg, h2]

/-- Witness for C8: the malformed id `"zz"` leaves an empty store untouched
and emits nothing, for all three operations. -/
theorem invalid_or_missing_id_noop_witness :
    isValidObjectId "zz" = false
  ∧ addReaction [] "zz" "alice" "+1" "r" = ([], [])
  ∧ editMessage [] "zz" "alice" "x" "r" 1 = ([], [])
  ∧ deleteMessage [] "zz" "alice" "r" = ([], []) :=
  ⟨by decide,
   (invalid_or_missing_id_noop [] "zz" "alice" "+1" "x" "r" 1 (Or.inl (by decide))).1,
   (invalid_or_missing_id_noop [] "zz" "alice" "+1" "x" "r" 1 (Or.inl (by decide))).2.1,
   (invalid_or_missing_id_noop [] "zz" "alice" "+1" "x" "r" 1 (Or.inl (by decide))).2.2⟩
